import Mathlib

/-!
Shallow embedding of the Shazam-Nodejs signature pipeline (src/Shazam.js) and
proofs about its codec and signature-generator behaviour.

Modelling conventions, used throughout:

* A Node `Buffer` is a `List Nat` of byte values; `Buffer.from` coerces every
  element with `% 256`, which is modelled explicitly where the source calls it.
* JavaScript numbers are modelled as `ℚ`.  Every numeric literal of the source
  that the theorems depend on (`1/64`, `16000 / 2 / 1024 / 64 = 0.1220703125`,
  the band boundaries, `3.1`, `0.24 * rate` for the six enumerated sample
  rates) is exactly representable as an IEEE-754 double or rounds to the value
  used here, so the rational model agrees with the float semantics on every
  comparison appearing in the development; each such spot carries a comment.
* JavaScript exceptions are `Except` errors.  Where an exception aborts a
  method mid-way, the error value carries the partially mutated state, because
  a thrown exception in JS leaves earlier property assignments in place.
* `Math.log` and the composite `fft(hanning .* window)` power spectrum of the
  external `fft-js` library are parameters (`JsEnv`); concrete theorems
  instantiate them, with comments justifying each instantiation.
-/

set_option autoImplicit false

deriving instance DecidableEq for Except

/-- Kinds of runtime errors raised by the JavaScript source: the codec's
`Error('Invalid signature header')` and `Error('Invalid data URI prefix')`,
Node range checks, property access on `undefined`, unbound identifiers, and
the base64 length check of `base64-js`.  `fuelOut` is an artifact of modelling
the source's loops by fuel recursion; every call site supplies strictly more
fuel than the loop can iterate, so it is unreachable. -/
inductive JsError where
  | invalidContainer
  | invalidUri
  | invalidBase64
  | rangeError
  | typeError
  | referenceError
  | fuelOut
  deriving DecidableEq

/-- JS array indexing `l[i]` with a possibly negative index: any index outside
the populated range yields `undefined`, modelled as `none`. -/
def jsIdx {α : Type} (l : List α) (i : ℤ) : Option α :=
  if h : 0 ≤ i ∧ i.toNat < l.length then some (l.get ⟨i.toNat, h.2⟩) else none

/-- JS `ToInt32`: reduce modulo `2^32` into `[-2^31, 2^31)`. -/
def toInt32 (n : ℤ) : ℤ :=
  let m := n % 2 ^ 32
  if m < 2 ^ 31 then m else m - 2 ^ 32

/-- JS signed right shift `x >> k`: `ToInt32`, then an arithmetic shift,
which is floor division by `2^k`. -/
def jsShr (n : ℤ) (k : ℕ) : ℤ := Int.fdiv (toInt32 n) (2 ^ k)

/-- JS left shift `x << k` (`ToInt32` of the truncated product). -/
def jsShl (n : ℤ) (k : ℕ) : ℤ := toInt32 (n * 2 ^ k)

/-- `buf.readUInt8(off)`: Node throws a `RangeError` when the read leaves the
buffer. -/
def readUInt8 (buf : List ℕ) (off : ℕ) : Except JsError ℕ :=
  if off + 1 ≤ buf.length then .ok (buf.getD off 0) else .error .rangeError

/-- `buf.readUInt16LE(off)` with Node's bounds check. -/
def readUInt16LE (buf : List ℕ) (off : ℕ) : Except JsError ℕ :=
  if off + 2 ≤ buf.length then .ok (buf.getD off 0 + 256 * buf.getD (off + 1) 0)
  else .error .rangeError

/-- `buf.readUInt32LE(off)` with Node's bounds check. -/
def readUInt32LE (buf : List ℕ) (off : ℕ) : Except JsError ℕ :=
  if off + 4 ≤ buf.length then
    .ok (buf.getD off 0 + 256 * buf.getD (off + 1) 0 + 65536 * buf.getD (off + 2) 0 +
      16777216 * buf.getD (off + 3) 0)
  else .error .rangeError

/-- `buf.writeUInt32LE(v, off)`.  Node's `checkInt` rejects `v < 0` and
`v > 0xffffffff` with a `RangeError` (a `NaN` value would pass this check, but
no `NaN` reaches a 32-bit write in this development); the individual byte
stores then truncate the value toward zero, so a fractional in-range value is
stored as its floor. -/
def writeUInt32LE (buf : List ℕ) (off : ℕ) (v : ℚ) : Except JsError (List ℕ) :=
  if v < 0 ∨ (4294967295 : ℚ) < v then .error .rangeError
  else if off + 4 ≤ buf.length then
    let n := v.floor.toNat
    .ok ((((buf.set off (n % 256)).set (off + 1) (n / 256 % 256)).set
      (off + 2) (n / 65536 % 256)).set (off + 3) (n / 16777216 % 256))
  else .error .rangeError

/-- The value of a 4-byte little-endian field, as combined by
`readUInt32LE`. -/
def u32 (l : List ℕ) (off : ℕ) : ℕ :=
  l.getD off 0 + 256 * l.getD (off + 1) 0 + 65536 * l.getD (off + 2) 0 +
    16777216 * l.getD (off + 3) 0

/-- Header field at byte offset `off` of a container, as the decoder reads
it (through `Buffer.from` coercion and the 48-byte header slice). -/
def headerField (data : List ℕ) (off : ℕ) : ℕ :=
  u32 ((data.map (· % 256)).take 48) off

/-- One bit step of the reflected CRC-32 (IEEE 802.3) computation. -/
def crcTabStep (t : ℕ) : ℕ :=
  if t % 2 = 1 then (t >>> 1) ^^^ 0xEDB88320 else t >>> 1

/-- Entry `i` of the reflected CRC-32 table: eight bit steps applied to the
byte.  The source asks Node's `createHash` for a digest named `'crc32'`; per
the container design the intended checksum is the standard CRC-32 over
`bytes[8:]`, which this computes (design note (c) of the specification). -/
def crcTab (i : ℕ) : ℕ :=
  crcTabStep (crcTabStep (crcTabStep (crcTabStep
    (crcTabStep (crcTabStep (crcTabStep (crcTabStep i)))))))

/-- One byte step of CRC-32: table-driven update of the running state. -/
def crcByteStep (s b : ℕ) : ℕ := (s >>> 8) ^^^ crcTab ((s ^^^ b) % 256)

/-- CRC-32 of a byte list (init `0xFFFFFFFF`, final xor `0xFFFFFFFF`). -/
def crc32 (bs : List ℕ) : ℕ := (bs.foldl crcByteStep 0xFFFFFFFF) ^^^ 0xFFFFFFFF

/-- The eight hex nibbles of a 32-bit value, most significant first.  This is
the digit sequence of `digest('hex')` for a 4-byte digest: always eight
digits, with leading zeros. -/
def digestHex32 (n : ℕ) : List ℕ :=
  [n / 16 ^ 7 % 16, n / 16 ^ 6 % 16, n / 16 ^ 5 % 16, n / 16 ^ 4 % 16,
   n / 16 ^ 3 % 16, n / 16 ^ 2 % 16, n / 16 % 16, n % 16]

/-- `digest('hex')` as a character string (lowercase hex, like JS). -/
def digestHexChars (n : ℕ) : List Char := (digestHex32 n).map Nat.digitChar

/-- JS `n.toString(16)`: minimal-length lowercase hex, `"0"` for zero.
`Nat.toDigits 16` has exactly this behaviour. -/
def jsToString16 (n : ℕ) : List Char := Nat.toDigits 16 n

/-- Character of a 6-bit group in the standard base64 alphabet used by
`base64-js`. -/
def b64Char (n : ℕ) : Char :=
  if n < 26 then Char.ofNat (65 + n)
  else if n < 52 then Char.ofNat (97 + (n - 26))
  else if n < 62 then Char.ofNat (48 + (n - 52))
  else if n = 62 then '+' else '/'

/-- `fromByteArray` of `base64-js`: standard base64 with `'='` padding. -/
def fromByteArray : List ℕ → List Char
  | a :: b :: c :: rest =>
    let w := a % 256 * 65536 + b % 256 * 256 + c % 256
    b64Char (w / 262144) :: b64Char (w / 4096 % 64) :: b64Char (w / 64 % 64) ::
      b64Char (w % 64) :: fromByteArray rest
  | [a, b] =>
    let w := a % 256 * 256 + b % 256
    [b64Char (w / 1024), b64Char (w / 16 % 64), b64Char (w % 16 * 4), '=']
  | [a] =>
    let w := a % 256
    [b64Char (w / 4), b64Char (w % 4 * 16), '=', '=']
  | [] => []

/-- Reverse base64 lookup.  `base64-js` reads an absent entry of its lookup
table as `undefined`, and the bitwise operators then coerce it to `0`; the
`getD`-style total lookup reproduces that. -/
def b64Val (c : Char) : ℕ :=
  if 65 ≤ c.toNat ∧ c.toNat ≤ 90 then c.toNat - 65
  else if 97 ≤ c.toNat ∧ c.toNat ≤ 122 then c.toNat - 97 + 26
  else if 48 ≤ c.toNat ∧ c.toNat ≤ 57 then c.toNat - 48 + 52
  else if c = '+' then 62
  else if c = '/' then 63
  else 0

/-- Decoding loop of `base64-js` `toByteArray`, four characters at a time;
`'='` padding is honoured in the final quadruple. -/
def b64Groups : List Char → List ℕ
  | a :: b :: c :: d :: rest =>
    if d = '=' ∧ c = '=' then
      [(b64Val a * 4 + b64Val b / 16) % 256]
    else if d = '=' then
      let w := b64Val a * 1024 + b64Val b * 16 + b64Val c / 4
      [w / 256 % 256, w % 256]
    else
      let w := b64Val a * 262144 + b64Val b * 4096 + b64Val c * 64 + b64Val d
      (w / 65536 % 256) :: (w / 256 % 256) :: (w % 256) :: b64Groups rest
  | _ => []

/-- `toByteArray` of `base64-js`: rejects strings whose length is not a
multiple of four, then decodes. -/
def toByteArray (s : List Char) : Except JsError (List ℕ) :=
  if s.length % 4 = 0 then .ok (b64Groups s) else .error .invalidBase64

/-- The `FrequencyPeak` record of the source (constructor field order). -/
structure FrequencyPeak where
  fftPassNumber : ℕ
  peakMagnitude : ℕ
  correctedPeakFrequencyBin : ℕ
  sampleRateHz : ℕ
  deriving DecidableEq

/-- A property key of the `frequencyBandToSoundPeaks` object.  The signature
generator stores peaks under the numeric band ids (JS string keys `"0"` to
`"3"`); `decodeFromBinary` looks the numeric band id up in the
`FrequencyBand` name-to-id enum, which has no numeric keys, so its lookup is
`undefined` and the decoded peaks land under the string key `"undefined"`,
modelled as `.undef`. -/
inductive BandKey where
  | id (b : ℤ)
  | undef
  deriving DecidableEq

/-- The `DecodedMessage` record: sample rate in Hz, sample count, and the
band-keyed peak map (kept as an association list in JS property order). -/
structure DecodedMessage where
  sampleRateHz : ℕ
  numberSamples : ℤ
  frequencyBandToSoundPeaks : List (BandKey × List FrequencyPeak)
  deriving DecidableEq

/-- Lookup in the band map (JS property read). -/
def bandLookup (m : List (BandKey × List FrequencyPeak)) (k : BandKey) :
    Option (List FrequencyPeak) :=
  (m.find? (fun e => decide (e.1 = k))).map Prod.snd

/-- JS property assignment on the band map: update an existing key in place,
otherwise append (JS objects keep insertion order for non-integer keys). -/
def bandSet (m : List (BandKey × List FrequencyPeak)) (k : BandKey)
    (v : List FrequencyPeak) : List (BandKey × List FrequencyPeak) :=
  if (m.find? (fun e => decide (e.1 = k))).isSome then
    m.map (fun e => if e.1 = k then (k, v) else e)
  else m ++ [(k, v)]

/-- Total peak count of the band map (the `Object.values(...).reduce` of the
source's loop condition). -/
def totalPeaks (m : List (BandKey × List FrequencyPeak)) : ℕ :=
  (m.map (fun e => e.2.length)).sum

/-- Comparison on band keys for `Object.keys` ordering. -/
def bandKeyLt : BandKey → BandKey → Bool
  | .id a, .id b => decide (a < b)
  | .id _, .undef => true
  | .undef, _ => false

/-- Insertion into an ordered entry list, by key. -/
def insertByKey (e : BandKey × List FrequencyPeak) :
    List (BandKey × List FrequencyPeak) → List (BandKey × List FrequencyPeak)
  | [] => [e]
  | f :: fs => if bandKeyLt e.1 f.1 then e :: f :: fs else f :: insertByKey e fs

/-- `Object.keys` enumeration order: integer-like keys first in ascending
numeric order, then string keys (here only `"undefined"`) in insertion
order.  The insertion sort is stable, which preserves insertion order among
equal/`undef` keys. -/
def jsKeysOrder (m : List (BandKey × List FrequencyPeak)) :
    List (BandKey × List FrequencyPeak) :=
  m.foldl (fun acc e => insertByKey e acc) []

/-- The `SampleRate` enum: id to Hz. -/
def sampleRateOfId (i : ℤ) : Option ℕ :=
  if i = 1 then some 8000 else if i = 2 then some 11025
  else if i = 3 then some 16000 else if i = 4 then some 32000
  else if i = 5 then some 44100 else if i = 6 then some 48000 else none

/-- The on-wire bias `sampleRateHz * 0.24` added to `numberSamples`.  For all
six enumerated rates the double-precision product `rate * 0.24` rounds to the
exact integer `rate * 6 / 25` (checked against the IEEE-754 value of `0.24`),
so the bias is modelled as that integer. -/
def rateBias (rate : ℕ) : ℤ := (6 * rate : ℤ) / 25

/-- Peak-record parsing loop of `decodeFromBinary`.  Faithful to the source
bug: the index `i` advances by one byte per produced peak while each peak
reads five bytes, so records overlap and `frequencyPeaksSize` counts bytes,
not peaks.  `rem` is the remaining iteration count. -/
def parsePeaks (buf : List ℕ) (rate off : ℕ) : ℕ → ℕ → Except JsError (List FrequencyPeak)
  | _, 0 => .ok []
  | i, rem + 1 => do
    let p ← readUInt8 buf (off + i)
    let mg ← readUInt16LE buf (off + i + 1)
    let bn ← readUInt16LE buf (off + i + 3)
    let rest ← parsePeaks buf rate off (i + 1) rem
    .ok (⟨p, mg, bn, rate⟩ :: rest)

/-- Band-record parsing loop of `decodeFromBinary`.  The source advances
`offset` by `frequencyPeaksSize + (-frequencyPeaksSize % 4)`; the JS remainder
of a negative value is negative, so the step is `size - size % 4`.  The
`FrequencyBand[frequencyBandId - 0x60030040]` lookup asks the name-to-id enum
for a numeric key and always yields `undefined` (`BandKey.undef`).  Fuel
recursion: each iteration advances `offset` by at least 8, and callers pass
`data.length + 1` fuel, so `fuelOut` is unreachable. -/
def parseBands (buf : List ℕ) (dataLen rate : ℕ) :
    ℕ → ℕ → List (BandKey × List FrequencyPeak) →
    Except JsError (List (BandKey × List FrequencyPeak))
  | 0, _, _ => .error .fuelOut
  | fuel + 1, off, acc =>
    if off < dataLen then do
      let _bandId ← readUInt32LE buf off
      let sz ← readUInt32LE buf (off + 4)
      let peaks ← parsePeaks buf rate (off + 8) 0 sz
      parseBands buf dataLen rate fuel (off + 8 + (sz - sz % 4)) (bandSet acc .undef peaks)
    else .ok acc

/-- `DecodedMessage.decodeFromBinary`.  The header check mirrors the source's
disjunction: wrong `magic1`, wrong size field, digest-string mismatch, or
wrong `magic2` all raise the same `Error('Invalid signature header')`.  The
CRC comparison is between the zero-padded 8-digit digest hex string and the
unpadded `crc32.toString(16)`, exactly as in the source.  The sample-rate
branch models `Object.keys(SampleRate).find(...)` returning `undefined` and
the subsequent `.substring` throwing a `TypeError` for unknown ids.
`Math.round` of the integer difference `field - bias` is the difference
itself.  The source performs the five header reads one after the other before
the check; a failed read raises the same `RangeError` whichever read fails,
so gathering them in one five-way match preserves the observable result. -/
def decodeFromBinary (data : List ℕ) : Except JsError DecodedMessage :=
  match readUInt32LE ((data.map (· % 256)).take 48) 0,
        readUInt32LE ((data.map (· % 256)).take 48) 4,
        readUInt32LE ((data.map (· % 256)).take 48) 8,
        readUInt32LE ((data.map (· % 256)).take 48) 12,
        readUInt32LE ((data.map (· % 256)).take 48) 28 with
  | .ok magic1, .ok storedCrc, .ok sizeMinusHeader, .ok magic2, .ok shiftedSampleRateId =>
    if magic1 ≠ 0xcafe2580 ∨ (sizeMinusHeader : ℤ) ≠ (data.length : ℤ) - 48 ∨
        digestHexChars (crc32 ((data.map (· % 256)).drop 8)) ≠ jsToString16 storedCrc ∨
        magic2 ≠ 0x94119c00 then
      .error .invalidContainer
    else
      match sampleRateOfId (jsShr shiftedSampleRateId 27) with
      | none => .error .typeError
      | some rate =>
        match readUInt32LE ((data.map (· % 256)).take 48) 44 with
        | .error e => .error e
        | .ok nsField =>
          match parseBands (data.map (· % 256)) data.length rate (data.length + 1) 48 [] with
          | .error e => .error e
          | .ok bands => .ok ⟨rate, (nsField : ℤ) - rateBias rate, bands⟩
  | .error e, _, _, _, _ => .error e
  | _, .error e, _, _, _ => .error e
  | _, _, .error e, _, _ => .error e
  | _, _, _, .error e, _ => .error e
  | _, _, _, _, .error e => .error e

/-- The data-URI scheme head `data:audio/vnd.shazam.sig;base64,`. -/
def uriHead : List Char :=
  ['d', 'a', 't', 'a', ':', 'a', 'u', 'd', 'i', 'o', '/', 'v', 'n', 'd', '.',
   's', 'h', 'a', 'z', 'a', 'm', '.', 's', 'i', 'g', ';', 'b', 'a', 's', 'e',
   '6', '4', ',']

/-- `DecodedMessage.decodeFromUri`: check the scheme head, strip it
(`replace` of a head occurrence is `drop`), base64-decode, then decode. -/
def decodeFromUri (uri : List Char) : Except JsError DecodedMessage := do
  if uriHead.isPrefixOf uri then do
    let bytes ← toByteArray (uri.drop uriHead.length)
    decodeFromBinary bytes
  else throw .invalidUri

/-- Encoding of one peak inside `encodeToBinary`.  `writeUInt8(fftPassNumber)`
raises a `RangeError` beyond 255.  The next two writes read
`peak.peak_magnitude` and `peak.corrected_peak_frequency_bin`, properties the
`FrequencyPeak` class does not define; Node coerces the resulting `undefined`
to `NaN`, which passes the range check and is stored as the bytes 0, 0, so
every encoded peak carries zeroed magnitude and bin fields. -/
def encodePeak (p : FrequencyPeak) : Except JsError (List ℕ) :=
  if 255 < p.fftPassNumber then .error .rangeError
  else .ok [p.fftPassNumber, 0, 0, 0, 0]

/-- Encoding of one band record inside `encodeToBinary`.  The source builds
the record head with `Buffer.from([(0x60030040 + FrequencyBand[band]) >> 0])`
and `Buffer.from([peaksBuf.length])`: each is a SINGLE byte, not a 32-bit
field; `FrequencyBand[band]` is `undefined` for the stored keys, the sum is
`NaN`, `NaN >> 0` is `0`, so the head byte is `0`; the length byte is the
payload length mod 256.  `Buffer.alloc(-peaksBuf.length % 4)` raises a
`RangeError` whenever the payload length is not a multiple of four (negative
size), and otherwise allocates nothing. -/
def encodeBand (e : BandKey × List FrequencyPeak) : Except JsError (List ℕ) := do
  let bufs ← e.2.mapM encodePeak
  let peaksBuf := bufs.flatten
  if peaksBuf.length % 4 ≠ 0 then .error .rangeError
  else .ok (0 :: peaksBuf.length % 256 :: peaksBuf)

/-- `DecodedMessage.encodeToBinary`, including its header-field bugs:
`sampleRateHz << 27` shifts the rate in Hz (not the enum id) with JS 32-bit
semantics, offset 44 is written twice with the biased sample count winning,
the size field written at offset 8 is `contents length + 8` (the real
`length - 48` of the produced buffer is `contents length`), and the final CRC
is written into `header` only AFTER `Buffer.concat` has copied it into `buf`,
so the returned container keeps zero CRC bytes.  That last dead store is kept
(bound and discarded) because it can in principle raise. -/
def encodeToBinary (msg : DecodedMessage) : Except JsError (List ℕ) :=
  (writeUInt32LE (List.replicate 48 0) 0 0xcafe2580).bind fun h1 =>
  (writeUInt32LE h1 12 0x94119c00).bind fun h2 =>
  (writeUInt32LE h2 28 ((jsShl msg.sampleRateHz 27 : ℤ) : ℚ)).bind fun h3 =>
  (writeUInt32LE h3 44 ((15 * 2 ^ 19 + 0x40000 : ℕ) : ℚ)).bind fun h4 =>
  (writeUInt32LE h4 44
      ((msg.numberSamples + rateBias msg.sampleRateHz : ℤ) : ℚ)).bind fun h5 =>
  ((jsKeysOrder msg.frequencyBandToSoundPeaks).mapM encodeBand).bind fun contents =>
  (writeUInt32LE h5 8 ((contents.flatten.length + 8 : ℕ) : ℚ)).bind fun h6 =>
  (writeUInt32LE h6 4
      ((crc32 ((h6 ++ contents.flatten).drop 8) : ℕ) : ℚ)).bind fun _deadStore =>
  .ok (h6 ++ contents.flatten)

/-- `DecodedMessage.encodeToUri`: scheme head plus base64 of the binary
form. -/
def encodeToUri (msg : DecodedMessage) : Except JsError (List Char) := do
  let bytes ← encodeToBinary msg
  .ok (uriHead ++ fromByteArray bytes)

/-- The ring of raw samples (`RingBuffer(2048, 0)` of the source): storage,
write cursor, and the never-reset written counter. -/
structure SampleRing where
  buf : List ℚ
  position : ℕ
  numWritten : ℕ
  deriving DecidableEq

/-- A ring of spectra (`RingBuffer(256, ...)`).  The source fills every slot
with ONE shared `new Array(1025).fill(0)`; the sharing would be observable
only through in-place writes into a slot, and every such write in this source
raises before completing (see `doPeakSpreading`), so independent per-slot
lists are a faithful model of all reachable behaviour. -/
structure SpectRing where
  buf : List (List ℚ)
  position : ℕ
  numWritten : ℕ
  deriving DecidableEq

/-- `RingBuffer.append`: store at the cursor, advance it modulo the size,
count the write.  (For cursor values beyond the storage length JS would grow
the array where `List.set` is a no-op; the cursor is always in range in this
development.) -/
def ringAppendQ (size : ℕ) (r : SampleRing) (v : ℚ) : SampleRing :=
  ⟨r.buf.set r.position v, (r.position + 1) % size, r.numWritten + 1⟩

/-- `RingBuffer.append` for spectra rings. -/
def ringAppend (size : ℕ) (r : SpectRing) (v : List ℚ) : SpectRing :=
  ⟨r.buf.set r.position v, (r.position + 1) % size, r.numWritten + 1⟩

/-- External numeric collaborators of the generator.  `spectrum` is the
composite of the element-wise Hann-window product, the 2048-point FFT of
`fft-js`, and the power map `re^2 + im^2`, applied to the time-ordered
2048-sample excerpt (the source computes these in one expression from the
excerpt; only their composite ever matters).  `jlog` is `Math.log`. -/
structure JsEnv where
  spectrum : List ℚ → List ℚ
  jlog : ℚ → ℚ

/-- The DSP portion of the generator state: the three rings and the
in-progress signature. -/
structure DspState where
  ringBufferOfSamples : SampleRing
  fftOutputs : SpectRing
  spreadFftsOutput : SpectRing
  nextSignature : DecodedMessage

/-- Full `SignatureGenerator` state. -/
structure GenState where
  inputPendingProcessing : List ℚ
  samplesProcessed : ℕ
  dsp : DspState

/-- Fresh DSP state, as built by the constructor and after each emission:
zeroed 2048-sample ring, two spectra rings of 256 slots of 1025 zeros, and an
empty 16 kHz signature. -/
def initDsp : DspState :=
  ⟨⟨List.replicate 2048 0, 0, 0⟩,
   ⟨List.replicate 256 (List.replicate 1025 0), 0, 0⟩,
   ⟨List.replicate 256 (List.replicate 1025 0), 0, 0⟩,
   ⟨16000, 0, []⟩⟩

/-- A fresh `SignatureGenerator`. -/
def initGenState : GenState := ⟨[], 0, initDsp⟩

/-- `feedInput`: append the samples to the pending input; nothing is ever
removed from it. -/
def feedInput (samples : List ℚ) (st : GenState) : GenState :=
  { st with inputPendingProcessing := st.inputPendingProcessing ++ samples }

/-- `doFft`: splice the hop into the sample ring at the cursor (`take-drop`
surgery agrees with `Array.prototype.splice` for every cursor value), advance
cursor and counter, take the time-ordered excerpt, and append the clamped
power spectrum to the FFT ring.  `Math.max(val, 1e-10)`: the IEEE double
nearest `1e-10` differs from the rational `1/10^10` by less than `4e-26` and
every comparison made against these entries is against `1/64`, far away, so
the rational clamp is faithful. -/
def doFft (env : JsEnv) (samples : List ℚ) (st : DspState) : DspState :=
  let r := st.ringBufferOfSamples
  let pos := r.position
  let buf := r.buf.take pos ++ samples ++ r.buf.drop (pos + samples.length)
  let position := (pos + samples.length) % 2048
  let ring : SampleRing := ⟨buf, position, r.numWritten + samples.length⟩
  let excerpt := buf.drop position ++ buf.take position
  let fftResults := (env.spectrum excerpt).map (fun v => max v (1 / 10 ^ 10))
  { st with ringBufferOfSamples := ring,
            fftOutputs := ringAppend 256 st.fftOutputs fftResults }

/-- The three backward offsets of the spread stage. -/
def spreadOffsets : List ℤ := [-1, -3, -6]

/-- The `[-1, -3, -6].forEach` body of `doPeakSpreading`: for each offset,
index the spread ring at `(position + offset) % 256` with the JS remainder
(negative for small cursors), read-and-write cell `i` with the chained max.
Indexing a negative position yields `undefined`, and `undefined[i]` throws a
`TypeError`: the error case returns the cells mutated so far, as JS leaves
them.  In-range cell reads use `getD`; an out-of-range element read would be
`undefined` in JS, but every cell this development ever reads has at least
1025 entries. -/
def spreadAtOffsets (basePos : ℤ) (i : ℕ) :
    List ℤ → List (List ℚ) × ℚ → Except (List (List ℚ)) (List (List ℚ) × ℚ)
  | [], s => .ok s
  | off :: rest, (cells, maxVal) =>
    let pos := Int.tmod (basePos + off) 256
    match jsIdx cells pos with
    | none => .error cells
    | some cell =>
      let m := max (cell.getD i 0) maxVal
      spreadAtOffsets basePos i rest (cells.set pos.toNat (cell.set i m), m)

/-- One index step `i` of the spread loop: the in-place 3-tap forward
frequency max for `i < 1023` (reading the not-yet-updated neighbours `i+1`,
`i+2`, as the ascending in-place loop of the source does), then the temporal
spreading at the three offsets. -/
def spreadBody (basePos : ℤ) (acc : List ℚ × List (List ℚ)) (i : ℕ) :
    Except (List (List ℚ)) (List ℚ × List (List ℚ)) :=
  let (sf, cells) := acc
  let sf := if i < 1023 then
      sf.set i (max (sf.getD i 0) (max (sf.getD (i + 1) 0) (sf.getD (i + 2) 0)))
    else sf
  match spreadAtOffsets basePos i spreadOffsets (cells, sf.getD i 0) with
  | .error cells2 => .error cells2
  | .ok (cells2, _) => .ok (sf, cells2)

/-- `doPeakSpreading`.  `fftOutputs[position - 1]` is `undefined` when the
cursor is 0 (JS index `-1`), making `.slice()` throw; otherwise the copied
spectrum is spread over frequency and time and appended.  A thrown
`TypeError` from the offset loop leaves the cells mutated so far in the
state. -/
def doPeakSpreading (st : DspState) : Except (JsError × DspState) DspState :=
  match jsIdx st.fftOutputs.buf ((st.fftOutputs.position : ℤ) - 1) with
  | none => .error (.typeError, st)
  | some lastFft =>
    match (List.range 1025).foldlM (spreadBody (st.spreadFftsOutput.position : ℤ))
        (lastFft, st.spreadFftsOutput.buf) with
    | .error cells =>
      .error (.typeError,
        { st with spreadFftsOutput := { st.spreadFftsOutput with buf := cells } })
    | .ok (sf, cells) =>
      let ring := ringAppend 256 ({ st.spreadFftsOutput with buf := cells }) sf
      .ok { st with spreadFftsOutput := ring }

/-- `Math.log(Math.max(1/64, v)) * 1477.3 + 6144` of the source.  `1477.3` is
modelled as `14773/10`; only signs and differences of `mag` values at equal
arguments are ever decided, so the float rounding of the constant never
changes a branch taken in this development. -/
def magOf (env : JsEnv) (v : ℚ) : ℚ := env.jlog (max (1 / 64) v) * (14773 / 10) + 6144

/-- The `maxNeighborInFftMinus49` accumulation (offsets -10, -3, 1, 2, 5, 8,
starting from 0). -/
def neighborMax (s49 : List ℚ) (i : ℕ) : ℚ :=
  max (s49.getD (i + 8) 0) (max (s49.getD (i + 5) 0) (max (s49.getD (i + 2) 0)
    (max (s49.getD (i + 1) 0) (max (s49.getD (i - 3) 0) (max (s49.getD (i - 10) 0) 0)))))

/-- The `[-53, -45, 165, 201, 214, 250].forEach` accumulation: each offset
indexes the spread ring at `(position + offset) % 256` (JS remainder, negative
for small cursors: `undefined`, and reading `[i-1]` then throws) and chains
the max at index `i - 1`. -/
def crossMax (cells : List (List ℚ)) (basePos : ℤ) (i : ℕ) :
    List ℤ → ℚ → Except Unit ℚ
  | [], acc => .ok acc
  | off :: rest, acc =>
    match jsIdx cells (Int.tmod (basePos + off) 256) with
    | none => .error ()
    | some cell => crossMax cells basePos i rest (max (cell.getD (i - 1) 0) acc)

/-- The offsets of `crossMax` in source order. -/
def crossOffsets : List ℤ := [-53, -45, 165, 201, 214, 250]

/-- The per-`i` body and loop of `doPeakRecognition` over `i = 10 .. 1014`,
carrying the band map.  Guards in source order; `&&` short-circuits, so
`fftMinus49` is only touched once the first threshold passed.  At the
emission site the source runs the create-if-absent assignment
`frequencyBandToSoundPeaks[band] = []` and then evaluates
`Math.floor(peak_magnitude)` - an identifier bound nowhere - so a
`ReferenceError` is thrown with the new empty band entry already in place;
no peak is ever appended. -/
def recogLoop (env : JsEnv) (p46 : Option (List ℚ)) (s49 : Option (List ℚ))
    (cells : List (List ℚ)) (basePos : ℤ) (fftNumber : ℕ) :
    List ℕ → List (BandKey × List FrequencyPeak) →
    Except (JsError × List (BandKey × List FrequencyPeak)) (List (BandKey × List FrequencyPeak))
  | [], m => .ok m
  | i :: rest, m =>
    match p46 with
    | none => .error (.typeError, m)
    | some f46 =>
      let v := f46.getD i 0
      if v < 1 / 64 then recogLoop env p46 s49 cells basePos fftNumber rest m
      else
        match s49 with
        | none => .error (.typeError, m)
        | some f49 =>
          if v < f49.getD (i - 1) 0 then recogLoop env p46 s49 cells basePos fftNumber rest m
          else if ¬ neighborMax f49 i < v then
            recogLoop env p46 s49 cells basePos fftNumber rest m
          else
            match crossMax cells basePos i crossOffsets (neighborMax f49 i) with
            | .error () => .error (.typeError, m)
            | .ok m2 =>
              if ¬ m2 < v then recogLoop env p46 s49 cells basePos fftNumber rest m
              else
                let pm := magOf env v
                let pmBefore := magOf env (f46.getD (i - 1) 0)
                let pmAfter := magOf env (f46.getD (i + 1) 0)
                let v1 := pm * 2 - pmBefore - pmAfter
                let v2 := (pmAfter - pmBefore) * 32 / v1
                let bin := (i : ℚ) * 64 + v2
                if 0 < v1 then
                  -- frequencyHz = bin * (16000 / 2 / 1024 / 64); the float
                  -- constant is exactly 125/1024.
                  let freq := bin * (125 / 1024)
                  if 250 ≤ freq then
                    let band : Option ℤ :=
                      if freq < 520 then some 0 else if freq < 1450 then some 1
                      else if freq < 3500 then some 2 else if freq ≤ 5500 then some 3
                      else none
                    match band with
                    | none => recogLoop env p46 s49 cells basePos fftNumber rest m
                    | some b =>
                      let m2 := if (bandLookup m (.id b)).isSome then m else bandSet m (.id b) []
                      .error (.referenceError, m2)
                  else recogLoop env p46 s49 cells basePos fftNumber rest m
                else recogLoop env p46 s49 cells basePos fftNumber rest m

/-- `doPeakRecognition`: fetch the delayed raw spectrum and the three delayed
spread spectra (the ring indices use the JS remainder of possibly negative
differences), then run the loop.  `fftMinus53` and `fftMinus45` are computed
and never used by the source; indexing alone cannot throw, so they are
dropped here.  An emission `ReferenceError` leaves the create-if-absent band
entry in the signature. -/
def doPeakRecognition (env : JsEnv) (st : DspState) : Except (JsError × DspState) DspState :=
  let p46 := jsIdx st.fftOutputs.buf (Int.tmod ((st.fftOutputs.position : ℤ) - 46) 256)
  let s49 := jsIdx st.spreadFftsOutput.buf
    (Int.tmod ((st.spreadFftsOutput.position : ℤ) - 49) 256)
  let withMap := fun m => { st with nextSignature := { st.nextSignature with frequencyBandToSoundPeaks := m } }
  match recogLoop env p46 s49 st.spreadFftsOutput.buf (st.spreadFftsOutput.position : ℤ)
      (st.spreadFftsOutput.numWritten - 46) (List.range' 10 1005)
      st.nextSignature.frequencyBandToSoundPeaks with
  | .error (e, m) => .error (e, withMap m)
  | .ok m => .ok (withMap m)

/-- `doPeakSpreadingAndRecognition`. -/
def doPeakSpreadingAndRecognition (env : JsEnv) (st : DspState) :
    Except (JsError × DspState) DspState :=
  match doPeakSpreading st with
  | .error es => .error es
  | .ok st1 =>
    if 46 ≤ st1.spreadFftsOutput.numWritten then doPeakRecognition env st1 else .ok st1

/-- The `for (i = 0; i < samples.length; i += 128)` loop of `processInput`,
in 128-sample chunks; fuel exceeds the chunk count at every call site. -/
def processChunks (env : JsEnv) : ℕ → List ℚ → DspState → Except (JsError × DspState) DspState
  | 0, _, st => .error (.fuelOut, st)
  | fuel + 1, samples, st =>
    if samples.isEmpty then .ok st
    else
      let st1 := doFft env (samples.take 128) st
      match doPeakSpreadingAndRecognition env st1 with
      | .error es => .error es
      | .ok st2 => processChunks env fuel (samples.drop 128) st2

/-- `processInput`: count the samples into `numberSamples` first (this
mutation survives a later throw), then process the chunks. -/
def processInput (env : JsEnv) (samples : List ℚ) (st : DspState) :
    Except (JsError × DspState) DspState :=
  let st := { st with nextSignature :=
    { st.nextSignature with numberSamples := st.nextSignature.numberSamples + samples.length } }
  processChunks env (samples.length + 1) samples st

/-- The `while` loop of `getNextSignature`.  The continuation condition is
the source's: at least 128 unprocessed samples AND (`numberSamples / rate <
MAX_TIME_SECONDS` OR total peaks `< MAX_PEAKS`), with `MAX_TIME_SECONDS =
3.1` modelled as `31/10` (`numberSamples` is an integer and the comparison of
the float quotient against the float `3.1` decides the same way for every
integer sample count) and `MAX_PEAKS = 255`.  Each successful iteration
advances `samplesProcessed` by 128 (after `processInput`, as in the source,
so a throw leaves it unchanged).  Fuel exceeds the possible iteration count
at the call site. -/
def sigLoop (env : JsEnv) : ℕ → GenState → Except (JsError × GenState) GenState
  | 0, st => .error (.fuelOut, st)
  | fuel + 1, st =>
    if 128 ≤ st.inputPendingProcessing.length - st.samplesProcessed ∧
        ((st.dsp.nextSignature.numberSamples : ℚ) / (st.dsp.nextSignature.sampleRateHz : ℚ) < 31 / 10 ∨
          totalPeaks st.dsp.nextSignature.frequencyBandToSoundPeaks < 255) then
      match processInput env
          ((st.inputPendingProcessing.drop st.samplesProcessed).take 128) st.dsp with
      | .error (e, d) => .error (e, { st with dsp := d })
      | .ok d =>
        sigLoop env fuel
          { st with dsp := d, samplesProcessed := st.samplesProcessed + 128 }
    else .ok st

/-- `getNextSignature`: `null` when fewer than 128 unprocessed samples remain
(the Nat subtraction clamps exactly where the JS float difference goes
negative, with the same branch outcome); otherwise run the loop, detach the
signature, and reset every ring and the in-progress signature. -/
def getNextSignature (env : JsEnv) (st : GenState) :
    Except (JsError × GenState) (Option DecodedMessage × GenState) :=
  if st.inputPendingProcessing.length - st.samplesProcessed < 128 then .ok (none, st)
  else
    match sigLoop env (st.inputPendingProcessing.length + 1) st with
    | .error es => .error es
    | .ok st1 => .ok (some st1.dsp.nextSignature, { st1 with dsp := initDsp })

/-- Power spectrum of silence.  For an all-zero excerpt the Hann product is
the zero vector, the 2048-point FFT of the zero vector is zero, and the power
map gives 2048 zeros (`fft-js` returns one complex pair per input point), so
this is the exact value of the source's composite on silent input; it
instantiates `JsEnv.spectrum` in runs whose samples are all zero. -/
def zeroSpectrum : List ℚ → List ℚ := fun _ => List.replicate 2048 0

/-- Environment for all-zero-input runs; such runs raise inside the spread
stage before `Math.log` is ever applied, so `jlog` is immaterial and set to
the zero function. -/
def envZero : JsEnv := ⟨zeroSpectrum, fun _ => 0⟩

/-- A concrete stand-in for `Math.log` used on states whose spectra contain
only the values `1/10^10`, `1/128`, `1/64` and `1`: after the `max (1/64)`
clamp the only arguments are `1/64` and `1`, and every branch decided from
`jlog` in those runs depends only on `jlog (1/64) < jlog 1` and on equal
arguments giving equal values, both of which hold for the real logarithm
(`ln (1/64) < 0 = ln 1`). -/
def jlogRef : ℚ → ℚ := fun q => if q < 1 then -7 else 0

/-- Environment for the crafted peak-recognition runs. -/
def envRef : JsEnv := ⟨zeroSpectrum, jlogRef⟩

/-- A 1025-bin spectrum that is `1/10^10` everywhere except a spike of power
1 at bin `k` flanked by `1/128` (below the `1/64` threshold, and clamped to
`1/64` inside `mag`, making the parabolic correction exactly zero). -/
def spikeAt (k : ℕ) : List ℚ :=
  (((List.replicate 1025 (1 / 10 ^ 10)).set (k - 1) (1 / 128)).set k 1).set
    (k + 1) (1 / 128)

/-- A generator DSP state in which `doPeakRecognition` runs with its delayed
frames available: both ring cursors at 60 with 60 frames written (so the
`-46`, `-49`, `-53`, `-45` and positive cross offsets all index populated
nonnegative slots), an all-zero spread ring, and the 46-passes-ago raw
spectrum (slot 14) holding a spike at bin `k`. -/
def recogState (k : ℕ) : DspState :=
  { ringBufferOfSamples := ⟨List.replicate 2048 0, 0, 0⟩
    fftOutputs := ⟨(List.replicate 256 (List.replicate 1025 0)).set 14 (spikeAt k), 60, 60⟩
    spreadFftsOutput := ⟨List.replicate 256 (List.replicate 1025 0), 60, 60⟩
    nextSignature := ⟨16000, 0, []⟩ }

/-- Error kind of a DSP-step result. -/
def dspErrKind : Except (JsError × DspState) DspState → Option JsError
  | .error (e, _) => some e
  | .ok _ => none

/-- Band map carried in the state of a failed DSP step. -/
def dspErrMap : Except (JsError × DspState) DspState →
    Option (List (BandKey × List FrequencyPeak))
  | .error (_, st) => some st.nextSignature.frequencyBandToSoundPeaks
  | .ok _ => none

/-- Error kind of a `getNextSignature` result. -/
def genErrKind {α : Type} : Except (JsError × GenState) α → Option JsError
  | .error (e, _) => some e
  | .ok _ => none

/-- Whether a `getNextSignature` result is a successful `null` return. -/
def isNoneResult : Except (JsError × GenState) (Option DecodedMessage × GenState) → Bool
  | .ok (none, _) => true
  | _ => false

/-- The empty well-formed signature: 16 kHz, zero samples, no peaks. -/
def emptySig : DecodedMessage := ⟨16000, 0, []⟩

/-- The generator state carried by a `sigLoop` result (a JS exception leaves
the mutated object behind). -/
def loopState : Except (JsError × GenState) GenState → GenState
  | .ok st => st
  | .error (_, st) => st

/-- One drain step of the pipeline: call `getNextSignature` and binary-encode
an emitted signature; the (possibly mid-throw) generator state is kept, as a
caught JS exception would leave it. -/
def takeEncoded (env : JsEnv) (st : GenState) :
    Except JsError (Option (Except JsError (List ℕ))) × GenState :=
  match getNextSignature env st with
  | .error (e, st2) => (.error e, st2)
  | .ok (none, st2) => (.ok none, st2)
  | .ok (some sig, st2) => (.ok (some (encodeToBinary sig)), st2)

/-- Drain the generator `n` times, collecting each call outcome together with
the encoded bytes of any emitted signature. -/
def drainEncoded (env : JsEnv) :
    ℕ → GenState → List (Except JsError (Option (Except JsError (List ℕ))))
  | 0, _ => []
  | n + 1, st =>
    let r := takeEncoded env st
    r.1 :: drainEncoded env n r.2

/-- Feed one input to a fresh generator, then drain it `n` times. -/
def runPipeline (env : JsEnv) (input : List ℚ) (n : ℕ) :
    List (Except JsError (Option (Except JsError (List ℕ)))) :=
  drainEncoded env n (feedInput input initGenState)

/-- External calls a caller can make on one `SignatureGenerator`. -/
inductive GenOp where
  | feed (samples : List ℚ)
  | take

/-- Apply one call to the generator state. -/
def applyOp (env : JsEnv) (st : GenState) : GenOp → GenState
  | .feed s => feedInput s st
  | .take =>
    match getNextSignature env st with
    | .ok (_, st2) => st2
    | .error (_, st2) => st2

/-- Run a call sequence against a fresh generator. -/
def runOps (env : JsEnv) (ops : List GenOp) : GenState :=
  ops.foldl (applyOp env) initGenState

/-- Number of samples fed by one call. -/
def fedLength : GenOp → ℕ
  | .feed s => s.length
  | .take => 0

/-- A valid 48-byte container: correct magics, empty body, size field 0,
sample-rate id 3 (16 kHz) in the upper five bits of the word at offset 28,
biased sample count 4000 at offset 44, and the correct CRC-32 `0x3A262123`
of bytes 8 to 47 stored little-endian at offset 4 (its 8-digit digest hex
string has no leading zero, which the decoder's string comparison needs). -/
def c5data : List ℕ :=
  [128, 37, 254, 202, 35, 33, 38, 58, 0, 0, 0, 0, 0, 156, 17, 148] ++
    List.replicate 12 0 ++ [0, 0, 0, 24] ++ List.replicate 12 0 ++ [160, 15, 0, 0]

/-- The same container with magic1 altered to `0xDEADBEEF` (scenario S4 of
the specification). -/
def c7data : List ℕ :=
  [239, 190, 173, 222, 35, 33, 38, 58, 0, 0, 0, 0, 0, 156, 17, 148] ++
    List.replicate 12 0 ++ [0, 0, 0, 24] ++ List.replicate 12 0 ++ [160, 15, 0, 0]

/-- The byte output of `encodeToBinary` on the empty signature: zeroed CRC
field (the store into it is dead), size field 8, zeroed sample-rate word
(`16000 << 27` wraps to 0), biased sample count 3840. -/
def c1bytes : List ℕ :=
  [128, 37, 254, 202, 0, 0, 0, 0, 8, 0, 0, 0, 0, 156, 17, 148] ++
    List.replicate 12 0 ++ [0, 0, 0, 0] ++ List.replicate 12 0 ++ [0, 15, 0, 0]

/-!  Facts about the CRC-32 byte step, leading to single-byte-flip detection:
flipping one byte of the checksummed region always changes the CRC value. -/

set_option maxRecDepth 10000 in
/-- Every CRC table entry fits in 32 bits. -/
theorem crcTab_lt : ∀ i < 256, crcTab i < 2 ^ 32 := by decide

set_option maxHeartbeats 1000000 in
set_option maxRecDepth 10000 in
/-- The top bytes of the 256 CRC table entries are pairwise distinct. -/
theorem crcTab_top_nodup : ((List.range 256).map fun i => crcTab i >>> 24).Nodup := by
  decide

/-- Distinct bytes have CRC table entries with distinct top bytes. -/
theorem crcTab_top_ne {i j : ℕ} (hi : i < 256) (hj : j < 256) (hne : i ≠ j) :
    crcTab i >>> 24 ≠ crcTab j >>> 24 := by
  intro h
  apply hne
  have hi2 : i < ((List.range 256).map fun k => crcTab k >>> 24).length := by simp; omega
  have hj2 : j < ((List.range 256).map fun k => crcTab k >>> 24).length := by simp; omega
  have hg : ((List.range 256).map fun k => crcTab k >>> 24).get ⟨i, hi2⟩ =
      ((List.range 256).map fun k => crcTab k >>> 24).get ⟨j, hj2⟩ := by
    simp only [List.get_eq_getElem, List.getElem_map, List.getElem_range]
    exact h
  have := crcTab_top_nodup.get_inj_iff.mp hg
  exact congrArg Fin.val this

/-- Low 8 bits of an xor are the xor of the low 8 bits. -/
theorem xor_mod256 (a b : ℕ) : (a ^^^ b) % 256 = a % 256 ^^^ b % 256 := by
  have h : (256 : ℕ) = 2 ^ 8 := by norm_num
  rw [h]
  apply Nat.eq_of_testBit_eq
  intro k
  simp only [Nat.testBit_mod_two_pow, Nat.testBit_xor]
  cases hk : decide (k < 8) <;> simp

/-- A right shift distributes over xor. -/
theorem shiftRight_xor_distrib (a b n : ℕ) : (a ^^^ b) >>> n = a >>> n ^^^ b >>> n := by
  apply Nat.eq_of_testBit_eq
  intro k
  simp [Nat.testBit_shiftRight, Nat.testBit_xor]

/-- Swapping sides of an xor equation. -/
theorem xor_swap_sides {a b x y : ℕ} (h : a ^^^ x = b ^^^ y) : a ^^^ b = x ^^^ y := by
  apply Nat.eq_of_testBit_eq
  intro k
  have hk := congrArg (fun n => n.testBit k) h
  simp only [Nat.testBit_xor] at hk ⊢
  rcases ha : a.testBit k <;> rcases hx : x.testBit k <;> rcases hb : b.testBit k <;>
    rcases hy : y.testBit k <;> simp_all

/-- A 32-bit value shifted right by 8 fits in 24 bits. -/
theorem shiftRight8_lt {s : ℕ} (h : s < 2 ^ 32) : s >>> 8 < 2 ^ 24 := by
  rw [Nat.shiftRight_eq_div_pow]
  omega

/-- A nonzero high byte forces a value of at least `2^24`. -/
theorem le_of_shiftRight24_ne {x : ℕ} (h : x >>> 24 ≠ 0) : 2 ^ 24 ≤ x := by
  by_contra hx
  exact h (by rw [Nat.shiftRight_eq_div_pow]; omega)

/-- The CRC byte step keeps the state inside 32 bits. -/
theorem crcByteStep_lt {s : ℕ} (b : ℕ) (h : s < 2 ^ 32) : crcByteStep s b < 2 ^ 32 := by
  unfold crcByteStep
  exact Nat.xor_lt_two_pow (lt_trans (shiftRight8_lt h) (by norm_num))
    (crcTab_lt _ (Nat.mod_lt _ (by norm_num)))

/-- The CRC byte step is injective in the state. -/
theorem crcByteStep_inj {s t : ℕ} (b : ℕ) (hs : s < 2 ^ 32) (ht : t < 2 ^ 32) (hb : b < 256)
    (h : crcByteStep s b = crcByteStep t b) : s = t := by
  unfold crcByteStep at h
  have hu : (s ^^^ b) % 256 = s % 256 ^^^ b := by
    rw [xor_mod256, Nat.mod_eq_of_lt hb]
  have hv : (t ^^^ b) % 256 = t % 256 ^^^ b := by
    rw [xor_mod256, Nat.mod_eq_of_lt hb]
  by_cases hlow : s % 256 = t % 256
  · have htab : (s ^^^ b) % 256 = (t ^^^ b) % 256 := by rw [hu, hv, hlow]
    rw [htab] at h
    have hsh := Nat.xor_left_injective h
    rw [Nat.shiftRight_eq_div_pow, Nat.shiftRight_eq_div_pow] at hsh
    norm_num at hsh
    omega
  · have huv : (s ^^^ b) % 256 ≠ (t ^^^ b) % 256 := by
      rw [hu, hv]
      intro hh
      exact hlow (Nat.xor_left_injective
        (by rwa [Nat.xor_comm (s % 256) b, Nat.xor_comm (t % 256) b] at hh))
    have hswap := xor_swap_sides h
    have hlhs : s >>> 8 ^^^ t >>> 8 < 2 ^ 24 :=
      Nat.xor_lt_two_pow (shiftRight8_lt hs) (shiftRight8_lt ht)
    have hne24 : (crcTab ((s ^^^ b) % 256) ^^^ crcTab ((t ^^^ b) % 256)) >>> 24 ≠ 0 := by
      rw [shiftRight_xor_distrib]
      intro hz
      exact crcTab_top_ne (Nat.mod_lt _ (by norm_num)) (Nat.mod_lt _ (by norm_num)) huv
        (Nat.xor_eq_zero.mp hz)
    have hge := le_of_shiftRight24_ne hne24
    rw [← hswap] at hge
    omega

/-- Folding CRC byte steps keeps the state inside 32 bits. -/
theorem crcFold_lt (l : List ℕ) : ∀ s, s < 2 ^ 32 → l.foldl crcByteStep s < 2 ^ 32 := by
  induction l with
  | nil => intro s hs; simpa using hs
  | cons b rest ih =>
    intro s hs
    rw [List.foldl_cons]
    exact ih _ (crcByteStep_lt b hs)

/-- Folding CRC byte steps over byte-valued data is injective in the initial
state. -/
theorem crcFold_inj (l : List ℕ) (hl : ∀ x ∈ l, x < 256) :
    ∀ s t, s < 2 ^ 32 → t < 2 ^ 32 → s ≠ t →
      l.foldl crcByteStep s ≠ l.foldl crcByteStep t := by
  induction l with
  | nil => intro s t _ _ hne; simpa using hne
  | cons b rest ih =>
    intro s t hs ht hne
    rw [List.foldl_cons, List.foldl_cons]
    have hb : b < 256 := hl b (List.mem_cons_self b rest)
    refine ih (fun x hx => hl x (List.mem_cons_of_mem b hx)) _ _
      (crcByteStep_lt b hs) (crcByteStep_lt b ht) ?_
    intro hstep
    exact hne (crcByteStep_inj b hs ht hb hstep)

/-- Replacing one byte of one list element by a different byte changes the
CRC byte step from an equal state. -/
theorem crcByteStep_ne_arg {s b c : ℕ} (hb : b < 256) (hc : c < 256) (hne : b ≠ c) :
    crcByteStep s b ≠ crcByteStep s c := by
  unfold crcByteStep
  intro h
  have htab := Nat.xor_right_injective h
  have hu : (s ^^^ b) % 256 = s % 256 ^^^ b := by rw [xor_mod256, Nat.mod_eq_of_lt hb]
  have hv : (s ^^^ c) % 256 = s % 256 ^^^ c := by rw [xor_mod256, Nat.mod_eq_of_lt hc]
  have huv : (s ^^^ b) % 256 ≠ (s ^^^ c) % 256 := by
    rw [hu, hv]
    intro hh
    exact hne (Nat.xor_right_injective hh)
  exact crcTab_top_ne (Nat.mod_lt _ (by norm_num)) (Nat.mod_lt _ (by norm_num)) huv
    (by rw [htab])

/-- CRC-32 detects any single-byte substitution: two byte lists equal except
for one differing byte value have different CRC-32 values. -/
theorem crc32_flip_ne (l1 l2 : List ℕ) {b c : ℕ} (h2 : ∀ x ∈ l2, x < 256)
    (hb : b < 256) (hc : c < 256) (hne : b ≠ c) :
    crc32 (l1 ++ b :: l2) ≠ crc32 (l1 ++ c :: l2) := by
  unfold crc32
  intro h
  have hfold := Nat.xor_left_injective h
  rw [List.foldl_append, List.foldl_append, List.foldl_cons, List.foldl_cons] at hfold
  have hs : l1.foldl crcByteStep 0xFFFFFFFF < 2 ^ 32 := crcFold_lt l1 _ (by norm_num)
  exact crcFold_inj l2 h2 _ _ (crcByteStep_lt _ hs) (crcByteStep_lt _ hs)
    (crcByteStep_ne_arg hb hc hne) hfold

/-- The CRC-32 of anything is a 32-bit value. -/
theorem crc32_lt (bs : List ℕ) : crc32 bs < 2 ^ 32 := by
  unfold crc32
  exact Nat.xor_lt_two_pow (crcFold_lt bs _ (by norm_num)) (by norm_num)

/-- `Nat.digitChar` is injective on hex digit values. -/
theorem digitChar_inj16 : ∀ a < 16, ∀ b < 16, Nat.digitChar a = Nat.digitChar b → a = b := by
  decide

/-- The 8-nibble digest string determines the 32-bit value. -/
theorem digestHexChars_inj {a b : ℕ} (ha : a < 2 ^ 32) (hb : b < 2 ^ 32)
    (h : digestHexChars a = digestHexChars b) : a = b := by
  unfold digestHexChars digestHex32 at h
  simp only [List.map_cons, List.map_nil, List.cons.injEq, and_true] at h
  obtain ⟨h7, h6, h5, h4, h3, h2, h1, h0⟩ := h
  have e7 := digitChar_inj16 _ (Nat.mod_lt _ (by norm_num)) _ (Nat.mod_lt _ (by norm_num)) h7
  have e6 := digitChar_inj16 _ (Nat.mod_lt _ (by norm_num)) _ (Nat.mod_lt _ (by norm_num)) h6
  have e5 := digitChar_inj16 _ (Nat.mod_lt _ (by norm_num)) _ (Nat.mod_lt _ (by norm_num)) h5
  have e4 := digitChar_inj16 _ (Nat.mod_lt _ (by norm_num)) _ (Nat.mod_lt _ (by norm_num)) h4
  have e3 := digitChar_inj16 _ (Nat.mod_lt _ (by norm_num)) _ (Nat.mod_lt _ (by norm_num)) h3
  have e2 := digitChar_inj16 _ (Nat.mod_lt _ (by norm_num)) _ (Nat.mod_lt _ (by norm_num)) h2
  have e1 := digitChar_inj16 _ (Nat.mod_lt _ (by norm_num)) _ (Nat.mod_lt _ (by norm_num)) h1
  have e0 := digitChar_inj16 _ (Nat.mod_lt _ (by norm_num)) _ (Nat.mod_lt _ (by norm_num)) h0
  norm_num at e7 e6 e5 e4 e3 e2 e1 e0
  omega


/-- An in-bounds `readUInt32LE` returns the little-endian field value. -/
theorem readUInt32LE_eq_ok {l : List ℕ} {off : ℕ} (h : off + 4 ≤ l.length) :
    readUInt32LE l off = .ok (u32 l off) := by
  unfold readUInt32LE u32
  rw [if_pos h]

/-- A successful `readUInt32LE` was in bounds. -/
theorem readUInt32LE_ok_bound {l : List ℕ} {off v : ℕ}
    (h : readUInt32LE l off = .ok v) : off + 4 ≤ l.length := by
  unfold readUInt32LE at h
  by_cases hb : off + 4 ≤ l.length
  · exact hb
  · rw [if_neg hb] at h
    exact absurd h (by simp)

/-- Any container of header-bearing length whose magic1, size field, CRC
digest string, or magic2 is off is rejected with the source's
`Error('Invalid signature header')`. -/
theorem decode_error_of_bad (data : List ℕ) (h48 : 48 ≤ data.length)
    (hbad : headerField data 0 ≠ 0xcafe2580 ∨
      (headerField data 8 : ℤ) ≠ (data.length : ℤ) - 48 ∨
      digestHexChars (crc32 ((data.map (· % 256)).drop 8)) ≠
        jsToString16 (headerField data 4) ∨
      headerField data 12 ≠ 0x94119c00) :
    decodeFromBinary data = .error .invalidContainer := by
  have hlen : ((data.map (· % 256)).take 48).length = 48 := by
    simp [List.length_take]; omega
  have r0 := @readUInt32LE_eq_ok ((data.map (· % 256)).take 48) 0 (by omega)
  have r4 := @readUInt32LE_eq_ok ((data.map (· % 256)).take 48) 4 (by omega)
  have r8 := @readUInt32LE_eq_ok ((data.map (· % 256)).take 48) 8 (by omega)
  have r12 := @readUInt32LE_eq_ok ((data.map (· % 256)).take 48) 12 (by omega)
  have r28 := @readUInt32LE_eq_ok ((data.map (· % 256)).take 48) 28 (by omega)
  unfold headerField at hbad
  simp only [decodeFromBinary, r0, r4, r8, r12, r28]
  rw [if_pos]
  exact hbad

/-- A successful decode pins down the container length and the CRC digest
string equality the header check verified. -/
theorem decode_ok_facts {data : List ℕ} {m : DecodedMessage}
    (hok : decodeFromBinary data = .ok m) :
    48 ≤ data.length ∧
      digestHexChars (crc32 ((data.map (· % 256)).drop 8)) =
        jsToString16 (headerField data 4) := by
  unfold decodeFromBinary at hok
  split at hok
  case _ magic1 storedCrc sizeMH magic2 shifted h0 h4 h8 h12 h28 =>
    split at hok
    · exact absurd hok (by simp)
    · rename_i hcond
      split at hok
      · exact absurd hok (by simp)
      · rename_i rate hrate
        split at hok
        · exact absurd hok (by simp)
        · rename_i nsField h44
          have hb := readUInt32LE_ok_bound h44
          rw [List.length_take, List.length_map] at hb
          have h48 : 48 ≤ data.length := by omega
          refine ⟨h48, ?_⟩
          push_neg at hcond
          obtain ⟨-, -, hdig, -⟩ := hcond
          have r4 := @readUInt32LE_eq_ok ((data.map (· % 256)).take 48) 4
            (by rw [List.length_take, List.length_map]; omega)
          rw [r4] at h4
          have : u32 ((data.map (· % 256)).take 48) 4 = storedCrc := by
            injection h4
          rw [headerField, this]
          exact hdig
  all_goals exact absurd hok (by simp)

/-- Bytes seen through `Buffer.from` are below 256. -/
theorem mapped_bytes_lt (data : List ℕ) : ∀ x ∈ data.map (· % 256), x < 256 := by
  intro x hx
  obtain ⟨y, -, hy⟩ := List.mem_map.mp hx
  omega

/-- A byte write at another position leaves a header byte unchanged. -/
theorem getD_take_map_set_ne {data : List ℕ} {p v j : ℕ} (hj : j ≠ p) :
    (((data.set p v).map (· % 256)).take 48).getD j 0 =
      ((data.map (· % 256)).take 48).getD j 0 := by
  rw [List.map_set]
  rcases lt_or_ge j 48 with hj48 | hj48
  · rw [List.getD_eq_getElem?_getD, List.getD_eq_getElem?_getD,
      List.getElem?_take_of_lt hj48, List.getElem?_take_of_lt hj48,
      List.getElem?_set_ne (Ne.symm hj)]
  · rw [List.getD_eq_getElem?_getD, List.getD_eq_getElem?_getD,
      List.getElem?_eq_none (by simp [List.length_take]; omega),
      List.getElem?_eq_none (by simp [List.length_take]; omega)]

/-- Writing a byte at position 8 or later leaves the stored-CRC field
(bytes 4 to 7) unchanged. -/
theorem headerField4_set_high {data : List ℕ} {p v : ℕ} (hp : 8 ≤ p) :
    headerField (data.set p v) 4 = headerField data 4 := by
  unfold headerField u32
  rw [getD_take_map_set_ne (by omega), getD_take_map_set_ne (by omega),
    getD_take_map_set_ne (by omega), getD_take_map_set_ne (by omega)]

/-- C5: for every container accepted by `decodeFromBinary` and every byte
position at least 8, replacing that single byte by any other byte value
makes `decodeFromBinary` fail with the InvalidContainer error: the CRC-32
over `bytes[8:]` (or, for positions 8-15, the size and magic checks it
precedes) detects the change. -/
theorem decode_detects_byte_flip (data : List ℕ) (p b2 : ℕ) (m : DecodedMessage)
    (hok : decodeFromBinary data = .ok m) (hp8 : 8 ≤ p) (hlt : p < data.length)
    (hb : b2 < 256) (hneq : b2 ≠ data.getD p 0 % 256) :
    decodeFromBinary (data.set p b2) = .error .invalidContainer := by
  obtain ⟨h48, hdig⟩ := decode_ok_facts hok
  apply decode_error_of_bad
  · rw [List.length_set]; exact h48
  refine Or.inr (Or.inr (Or.inl ?_))
  rw [headerField4_set_high hp8]
  set mapped := data.map (· % 256) with hmapped
  have hmlen : mapped.length = data.length := by simp [hmapped]
  have hplt : p < mapped.length := by omega
  set body := mapped.drop 8 with hbody
  have hblen : body.length = data.length - 8 := by simp [hbody, hmlen]
  set q := p - 8 with hq
  have hqlt : q < body.length := by omega
  -- the flipped checksummed region is body with its q-th byte replaced
  have hset : ((data.set p b2).map (· % 256)).drop 8 = body.set q (b2 % 256) := by
    rw [List.map_set, ← hmapped, List.drop_set, if_neg (by omega), ← hbody, ← hq]
  have hb2 : b2 % 256 = b2 := Nat.mod_eq_of_lt hb
  -- identify the byte being replaced
  have hdq : body.drop q = mapped.drop p := by
    rw [hbody, List.drop_drop]
    congr 1
    omega
  have h1 := List.drop_eq_getElem_cons hplt
  have h2 := List.drop_eq_getElem_cons hqlt
  rw [hdq, h1] at h2
  have hbyte : mapped[p] = body[q] := (List.cons.injEq _ _ _ _ ▸ h2).1
  rw [hset, ← hdig]
  intro hcontra
  have hcrceq := digestHexChars_inj (crc32_lt _) (crc32_lt _) hcontra
  have hdecomp1 : body = body.take q ++ body[q] :: body.drop (q + 1) := by
    conv_lhs => rw [← List.take_append_drop q body]
    rw [← List.getElem_cons_drop body q hqlt]
  have hdecomp2 : body.set q (b2 % 256) = body.take q ++ b2 % 256 :: body.drop (q + 1) :=
    List.set_eq_take_cons_drop _ hqlt
  have hbytes : ∀ x ∈ body.drop (q + 1), x < 256 := fun x hx =>
    mapped_bytes_lt data x (List.mem_of_mem_drop (List.mem_of_mem_drop hx))
  have hmp : mapped[p] = data.getD p 0 % 256 := by
    simp only [hmapped, List.getElem_map]
    rw [List.getD_eq_getElem data 0 hlt]
  have hbqlt : body[q] < 256 := by
    rw [← hbyte, hmp]
    omega
  have hne : b2 % 256 ≠ body[q] := by
    rw [hb2, ← hbyte, hmp]
    exact hneq
  have hflip := crc32_flip_ne (body.take q) (body.drop (q + 1)) hbytes
    (by omega) hbqlt hne
  rw [← hdecomp2, ← hdecomp1] at hflip
  exact hflip hcrceq


/-- Projection of `loopState` on a success. -/
theorem loopState_ok (st : GenState) : loopState (.ok st) = st := rfl

/-- Projection of `loopState` on an exception. -/
theorem loopState_error (e : JsError) (st : GenState) : loopState (.error (e, st)) = st := rfl

/-- The signature loop never touches the pending-input list and only ever
advances `samplesProcessed`, whether it exits normally or by exception. -/
theorem sigLoop_pending_sp (env : JsEnv) (fuel : ℕ) : ∀ st : GenState,
    (loopState (sigLoop env fuel st)).inputPendingProcessing = st.inputPendingProcessing ∧
      st.samplesProcessed ≤ (loopState (sigLoop env fuel st)).samplesProcessed := by
  induction fuel with
  | zero => intro st; exact ⟨rfl, le_refl _⟩
  | succ n ih =>
    intro st
    by_cases hc : 128 ≤ st.inputPendingProcessing.length - st.samplesProcessed ∧
        ((st.dsp.nextSignature.numberSamples : ℚ) / (st.dsp.nextSignature.sampleRateHz : ℚ) < 31 / 10 ∨
          totalPeaks st.dsp.nextSignature.frequencyBandToSoundPeaks < 255)
    · rw [sigLoop, if_pos hc]
      rcases hp : processInput env
          ((st.inputPendingProcessing.drop st.samplesProcessed).take 128) st.dsp with ⟨e, d⟩ | d
      · exact ⟨rfl, le_refl _⟩
      · have h2 := ih { st with dsp := d, samplesProcessed := st.samplesProcessed + 128 }
        refine ⟨h2.1, ?_⟩
        calc st.samplesProcessed ≤ st.samplesProcessed + 128 := by omega
          _ ≤ _ := h2.2
    · rw [sigLoop, if_neg hc]
      exact ⟨rfl, le_refl _⟩

/-- One external call grows the pending input by exactly the samples it
feeds and never decreases `samplesProcessed`. -/
theorem applyOp_state (env : JsEnv) (st : GenState) (op : GenOp) :
    (applyOp env st op).inputPendingProcessing.length =
      st.inputPendingProcessing.length + fedLength op ∧
    st.samplesProcessed ≤ (applyOp env st op).samplesProcessed := by
  cases op with
  | feed s => simp [applyOp, feedInput, fedLength]
  | take =>
    unfold applyOp getNextSignature fedLength
    by_cases h : st.inputPendingProcessing.length - st.samplesProcessed < 128
    · rw [if_pos h]
      exact ⟨by simp, le_refl _⟩
    · rw [if_neg h]
      have hs := sigLoop_pending_sp env (st.inputPendingProcessing.length + 1) st
      rcases heq : sigLoop env (st.inputPendingProcessing.length + 1) st with ⟨e, st2⟩ | st1
      · rw [heq, loopState_error] at hs
        exact ⟨by rw [hs.1]; simp [fedLength], hs.2⟩
      · rw [heq, loopState_ok] at hs
        refine ⟨?_, hs.2⟩
        show st1.inputPendingProcessing.length = st.inputPendingProcessing.length + 0
        rw [hs.1]
        omega

/-- C6 (amended): `getNextSignature` returns `null` exactly when fewer than
128 unprocessed samples remain; with at least 128 it either raises or
returns a signature, never `null`. -/
theorem getNextSignature_none_iff (env : JsEnv) (st : GenState) :
    (∃ st2, getNextSignature env st = .ok (none, st2)) ↔
      st.inputPendingProcessing.length - st.samplesProcessed < 128 := by
  unfold getNextSignature
  by_cases h : st.inputPendingProcessing.length - st.samplesProcessed < 128
  · rw [if_pos h]
    exact ⟨fun _ => h, fun _ => ⟨st, rfl⟩⟩
  · rw [if_neg h]
    constructor
    · rintro ⟨st2, hst2⟩
      rcases heq : sigLoop env (st.inputPendingProcessing.length + 1) st with es | st1 <;>
        rw [heq] at hst2 <;> exact absurd hst2 (by simp)
    · intro hc
      exact absurd hc h

/-- C9: the pipeline is deterministic: two generators fed equal input
sample sequences and drained by equally many calls produce identical
call-outcome sequences, byte-identical `encodeToBinary` results included. -/
theorem pipeline_deterministic (env : JsEnv) (input1 input2 : List ℚ) (n1 n2 : ℕ)
    (hi : input1 = input2) (hn : n1 = n2) :
    runPipeline env input1 n1 = runPipeline env input2 n2 := by
  subst hi
  subst hn
  rfl

/-- C10: over any sequence of `feedInput` and `getNextSignature` calls the
pending-input buffer retains every sample ever fed (its length equals the
total fed) and `samplesProcessed` never decreases; consumed samples are
never removed, so retained input grows without bound in the amount fed. -/
theorem generator_retains_all_input (env : JsEnv) (ops : List GenOp) :
    (runOps env ops).inputPendingProcessing.length = (ops.map fedLength).sum ∧
    ∀ k : ℕ, (runOps env (ops.take k)).samplesProcessed ≤
      (runOps env (ops.take (k + 1))).samplesProcessed := by
  constructor
  · suffices h : ∀ st, ((ops.foldl (applyOp env) st).inputPendingProcessing.length =
        st.inputPendingProcessing.length + (ops.map fedLength).sum) by
      have h2 := h initGenState
      simpa [runOps, initGenState] using h2
    induction ops with
    | nil => simp
    | cons op rest ih =>
      intro st
      rw [List.foldl_cons, List.map_cons, List.sum_cons, ih]
      rw [(applyOp_state env st op).1]
      ring
  · intro k
    rcases lt_or_ge k ops.length with hk | hk
    · rw [List.take_succ, List.getElem?_eq_getElem hk]
      rw [runOps, runOps, List.foldl_append]
      simp only [Option.toList_some, List.foldl_cons, List.foldl_nil]
      exact (applyOp_state env _ _).2
    · rw [List.take_of_length_le (by omega), List.take_of_length_le (by omega)]

/-- Reading back a just-written list element. -/
theorem getD_set_self {l : List ℕ} {i a : ℕ} (h : i < l.length) :
    (l.set i a).getD i 0 = a := by
  rw [List.getD_eq_getElem _ 0 (by simpa using h)]
  exact List.getElem_set_self (by simpa using h)

/-- A list write leaves other positions unchanged. -/
theorem getD_set_ne {l : List ℕ} {i j a : ℕ} (h : i ≠ j) :
    (l.set i a).getD j 0 = l.getD j 0 := by
  rw [List.getD_eq_getElem?_getD, List.getD_eq_getElem?_getD, List.getElem?_set_ne h]

/-- The floor of a cast natural is itself. -/
theorem ratFloor_natCast (n : ℕ) : Rat.floor ((n : ℕ) : ℚ) = (n : ℤ) := by
  have h : Rat.floor ((n : ℕ) : ℚ) = ⌊((n : ℕ) : ℚ)⌋ := rfl
  rw [h, Int.floor_natCast]

/-- What a successful `writeUInt32LE` guarantees: length preserved, offsets
in bounds, bytes outside the field untouched, and the four field bytes
holding the little-endian decomposition of the truncated value. -/
theorem writeUInt32LE_spec {buf : List ℕ} {off : ℕ} {v : ℚ} {out : List ℕ}
    (h : writeUInt32LE buf off v = .ok out) :
    out.length = buf.length ∧ off + 4 ≤ buf.length ∧
    (∀ j, j < off ∨ off + 4 ≤ j → out.getD j 0 = buf.getD j 0) ∧
    (∀ k, k < 4 → out.getD (off + k) 0 = v.floor.toNat / 256 ^ k % 256) := by
  unfold writeUInt32LE at h
  split at h
  · exact absurd h (by simp)
  · split at h
    · rename_i hrange hb
      injection h with h
      subst h
      refine ⟨by simp, hb, ?_, ?_⟩
      · intro j hj
        rw [getD_set_ne (by omega), getD_set_ne (by omega), getD_set_ne (by omega),
          getD_set_ne (by omega)]
      · have e0 : ((((buf.set off (v.floor.toNat % 256)).set (off + 1)
            (v.floor.toNat / 256 % 256)).set (off + 2) (v.floor.toNat / 65536 % 256)).set
            (off + 3) (v.floor.toNat / 16777216 % 256)).getD off 0 = v.floor.toNat % 256 := by
          rw [getD_set_ne (by omega), getD_set_ne (by omega), getD_set_ne (by omega),
            getD_set_self (by omega)]
        have e1 : ((((buf.set off (v.floor.toNat % 256)).set (off + 1)
            (v.floor.toNat / 256 % 256)).set (off + 2) (v.floor.toNat / 65536 % 256)).set
            (off + 3) (v.floor.toNat / 16777216 % 256)).getD (off + 1) 0 =
            v.floor.toNat / 256 % 256 := by
          rw [getD_set_ne (by omega), getD_set_ne (by omega),
            getD_set_self (by rw [List.length_set]; omega)]
        have e2 : ((((buf.set off (v.floor.toNat % 256)).set (off + 1)
            (v.floor.toNat / 256 % 256)).set (off + 2) (v.floor.toNat / 65536 % 256)).set
            (off + 3) (v.floor.toNat / 16777216 % 256)).getD (off + 2) 0 =
            v.floor.toNat / 65536 % 256 := by
          rw [getD_set_ne (by omega),
            getD_set_self (by rw [List.length_set, List.length_set]; omega)]
        have e3 : ((((buf.set off (v.floor.toNat % 256)).set (off + 1)
            (v.floor.toNat / 256 % 256)).set (off + 2) (v.floor.toNat / 65536 % 256)).set
            (off + 3) (v.floor.toNat / 16777216 % 256)).getD (off + 3) 0 =
            v.floor.toNat / 16777216 % 256 := by
          rw [getD_set_self
            (by rw [List.length_set, List.length_set, List.length_set]; omega)]
        intro k hk
        have hc : k = 0 ∨ k = 1 ∨ k = 2 ∨ k = 3 := by omega
        rcases hc with rfl | rfl | rfl | rfl
        · simpa using e0
        · simpa using e1
        · simpa using e2
        · simpa using e3
    · exact absurd h (by simp)

/-- Reading the left part of an appended list. -/
theorem getD_append_left {l1 l2 : List ℕ} {j : ℕ} (h : j < l1.length) :
    (l1 ++ l2).getD j 0 = l1.getD j 0 := by
  rw [List.getD_eq_getElem?_getD, List.getD_eq_getElem?_getD, List.getElem?_append_left h]

/-- A header byte seen through `Buffer.from` and the 48-byte slice. -/
theorem getD_take_map {bs : List ℕ} {j : ℕ} (hj : j < 48) (hlen : j < bs.length) :
    ((bs.map (· % 256)).take 48).getD j 0 = bs.getD j 0 % 256 := by
  rw [List.getD_eq_getElem?_getD, List.getElem?_take_of_lt hj, List.getElem?_map,
    List.getElem?_eq_getElem hlen]
  rw [List.getD_eq_getElem _ 0 hlen]
  rfl

/-- Inverting one step of an `Except.bind` chain that ended in success. -/
theorem bindEqOk {α β : Type} {x : Except JsError α} {f : α → Except JsError β} {b : β}
    (h : Except.bind x f = Except.ok b) :
    ∃ a, x = Except.ok a ∧ f a = Except.ok b := by
  cases x with
  | error e => exact Except.noConfusion h
  | ok a => exact ⟨a, rfl, h⟩

set_option maxRecDepth 40000 in
/-- Whenever `encodeToBinary` succeeds, decoding its output raises
InvalidContainer: the size field it wrote is `contents + 8`, but the
produced container is `48 + contents` bytes long and the decoder demands
`length - 48`, which differs by 8 whatever the contents (mod-`2^32`
wraparound included). -/
theorem encode_ok_decode_error {msg : DecodedMessage} {bs : List ℕ}
    (h : encodeToBinary msg = .ok bs) :
    decodeFromBinary bs = .error .invalidContainer := by
  unfold encodeToBinary at h
  obtain ⟨h1, hw1, h⟩ := bindEqOk h
  obtain ⟨h2, hw2, h⟩ := bindEqOk h
  obtain ⟨h3, hw3, h⟩ := bindEqOk h
  obtain ⟨h4, hw4, h⟩ := bindEqOk h
  obtain ⟨h5, hw5, h⟩ := bindEqOk h
  obtain ⟨contents, hcont, h⟩ := bindEqOk h
  obtain ⟨h6, hw6, h⟩ := bindEqOk h
  obtain ⟨dead, hwdead, h⟩ := bindEqOk h
  have hbeta : (Except.ok (h6 ++ contents.flatten) : Except JsError (List ℕ)) =
      Except.ok bs := h
  have hb : h6 ++ contents.flatten = bs := Except.ok.inj hbeta
  subst hb
  obtain ⟨l1, -, p1, -⟩ := writeUInt32LE_spec hw1
  obtain ⟨l2, -, p2, -⟩ := writeUInt32LE_spec hw2
  obtain ⟨l3, -, p3, -⟩ := writeUInt32LE_spec hw3
  obtain ⟨l4, -, p4, -⟩ := writeUInt32LE_spec hw4
  obtain ⟨l5, -, p5, -⟩ := writeUInt32LE_spec hw5
  obtain ⟨l6, -, p6, b6⟩ := writeUInt32LE_spec hw6
  have hlen6 : h6.length = 48 := by
    rw [l6, l5, l4, l3, l2, l1]
    simp
  have hbs : (h6 ++ contents.flatten).length = 48 + contents.flatten.length := by
    rw [List.length_append, hlen6]
  have hn6 : ((contents.flatten.length + 8 : ℕ) : ℚ).floor.toNat =
      contents.flatten.length + 8 := by
    rw [ratFloor_natCast]
    exact Int.toNat_natCast _
  apply decode_error_of_bad
  · omega
  refine Or.inr (Or.inl ?_)
  have hfield : headerField (h6 ++ contents.flatten) 8 =
      (contents.flatten.length + 8) % 2 ^ 32 := by
    unfold headerField u32
    rw [getD_take_map (by omega) (by omega), getD_take_map (by omega) (by omega),
      getD_take_map (by omega) (by omega), getD_take_map (by omega) (by omega)]
    rw [getD_append_left (by omega), getD_append_left (by omega),
      getD_append_left (by omega), getD_append_left (by omega)]
    have k0 := b6 0 (by omega)
    have k1 := b6 1 (by omega)
    have k2 := b6 2 (by omega)
    have k3 := b6 3 (by omega)
    simp only [Nat.add_zero, pow_zero, pow_one, Nat.div_one] at k0 k1 k2 k3
    rw [k0, k1, k2, k3, hn6]
    omega
  rw [hfield, hbs]
  intro hc
  omega

/-- With the spread write cursor at 0 the first temporal offset of the
spreading loop addresses ring index `-1` (the JS remainder is negative) and
the access to the `undefined` slot fails. -/
theorem spreadAtOffsets_neg {cells : List (List ℚ)} {x : ℚ} {i : ℕ} :
    spreadAtOffsets 0 i spreadOffsets (cells, x) = .error cells := by
  unfold spreadOffsets spreadAtOffsets
  rw [show Int.tmod (0 + -1) 256 = -1 from rfl]
  have hj : jsIdx cells (-1) = none := by
    unfold jsIdx
    rw [dif_neg]
    omega
  simp only [hj]

/-- Every call of `doPeakSpreading` on a state whose spread write cursor is
0 - which holds on the first pass of every generator, and stays 0 because
the cursor-advancing append below the throwing loop is never reached -
raises a `TypeError`. -/
theorem doPeakSpreading_cursor_zero (st : DspState)
    (h : st.spreadFftsOutput.position = 0) :
    ∃ d, doPeakSpreading st = .error (.typeError, d) := by
  unfold doPeakSpreading
  rcases hf : jsIdx st.fftOutputs.buf ((st.fftOutputs.position : ℤ) - 1) with - | lf
  · exact ⟨st, rfl⟩
  · simp only [h, Nat.cast_zero]
    rw [show List.range 1025 = 0 :: (List.range 1024).map Nat.succ from
      List.range_succ_eq_map 1024]
    rw [List.foldlM_cons]
    have hb : spreadBody 0 (lf, st.spreadFftsOutput.buf) 0 = .error st.spreadFftsOutput.buf := by
      unfold spreadBody
      simp only [reduceIte, spreadAtOffsets_neg]
    rw [hb]
    exact ⟨_, rfl⟩

/-- `processInput` on any nonempty hop with the spread cursor at 0 raises a
`TypeError` from the first spread pass. -/
theorem processInput_cursor_zero (env : JsEnv) (samples : List ℚ) (st : DspState)
    (hne : ¬ samples.isEmpty) (hpos : st.spreadFftsOutput.position = 0) :
    ∃ d, processInput env samples st = .error (.typeError, d) := by
  unfold processInput processChunks
  rw [if_neg hne]
  have hpos2 : (doFft env (samples.take 128)
      { st with nextSignature :=
        { st.nextSignature with numberSamples :=
          st.nextSignature.numberSamples + samples.length } }).spreadFftsOutput.position = 0 :=
    hpos
  obtain ⟨d, hd⟩ := doPeakSpreading_cursor_zero _ hpos2
  have hall : doPeakSpreadingAndRecognition env (doFft env (samples.take 128)
      { st with nextSignature :=
        { st.nextSignature with numberSamples :=
          st.nextSignature.numberSamples + samples.length } }) = .error (.typeError, d) := by
    unfold doPeakSpreadingAndRecognition
    rw [hd]
  refine ⟨d, ?_⟩
  simp only [hall]

/-- When `processInput` on the current hop throws, the loop of
`getNextSignature` propagates the error with the partially mutated state
(the peak-count disjunct alone suffices to enter the iteration). -/
theorem sigLoop_first_error (env : JsEnv) (fuel : ℕ) (st : GenState) (e : JsError)
    (d : DspState)
    (hr : 128 ≤ st.inputPendingProcessing.length - st.samplesProcessed)
    (hpk : totalPeaks st.dsp.nextSignature.frequencyBandToSoundPeaks < 255)
    (hp : processInput env
        ((st.inputPendingProcessing.drop st.samplesProcessed).take 128) st.dsp =
      .error (e, d)) :
    sigLoop env (fuel + 1) st = .error (e, { st with dsp := d }) := by
  rw [sigLoop, if_pos ⟨hr, Or.inr hpk⟩, hp]

/-- C2: `getNextSignature` never consumes input under the claimed stopping
policy: for EVERY spectrum model and EVERY input of at least 128 samples,
the very first 128-sample hop already throws a `TypeError` in the spread
stage (ring index `(0 - 1) % 256 = -1` under the JS remainder), so no
signature is ever emitted and no stopping rule is ever reached. -/
theorem first_take_crashes (env : JsEnv) (input : List ℚ) (h : 128 ≤ input.length) :
    genErrKind (getNextSignature env (feedInput input initGenState)) =
      some JsError.typeError := by
  have hstate : feedInput input initGenState = ⟨input, 0, initDsp⟩ := by
    unfold feedInput initGenState
    simp
  rw [hstate]
  obtain ⟨d, hp⟩ := processInput_cursor_zero env (input.take 128) initDsp
    (by
      intro hemp
      have hnil : input.take 128 = [] := by
        rwa [List.isEmpty_eq_true] at hemp
      have hlen := congrArg List.length hnil
      simp only [List.length_take, List.length_nil] at hlen
      omega)
    rfl
  have hsl := sigLoop_first_error env input.length (⟨input, 0, initDsp⟩ : GenState)
    JsError.typeError d
    (show 128 ≤ input.length - 0 by omega)
    (show totalPeaks initDsp.nextSignature.frequencyBandToSoundPeaks < 255 by decide)
    (show processInput env ((input.drop 0).take 128) initDsp =
        .error (JsError.typeError, d) by
      rw [List.drop_zero]
      exact hp)
  unfold getNextSignature
  rw [if_neg (show ¬(input.length - 0 < 128) by omega)]
  rw [hsl]
  rfl

/-- The loop condition of `getNextSignature` is a disjunction: with the
time limit already reached but fewer than 255 peaks, the loop still runs
another iteration, so the 3.1-second cap alone does not stop consumption
(the source joins its two limits with OR, not AND). -/
theorem sigLoop_ignores_time_limit (env : JsEnv) (fuel : ℕ) (st : GenState)
    (hr : 128 ≤ st.inputPendingProcessing.length - st.samplesProcessed)
    (_ht : (31 : ℚ) / 10 ≤ (st.dsp.nextSignature.numberSamples : ℚ) /
      (st.dsp.nextSignature.sampleRateHz : ℚ))
    (hp : totalPeaks st.dsp.nextSignature.frequencyBandToSoundPeaks < 255) :
    sigLoop env (fuel + 1) st =
      match processInput env
          ((st.inputPendingProcessing.drop st.samplesProcessed).take 128) st.dsp with
      | .error (e, d) => .error (e, { st with dsp := d })
      | .ok d =>
        sigLoop env fuel
          { st with dsp := d, samplesProcessed := st.samplesProcessed + 128 } := by
  rw [sigLoop, if_pos ⟨hr, Or.inr hp⟩]

set_option maxRecDepth 1000000 in
unseal Rat.mul Rat.add Rat.inv Rat.sub in
/-- C1: the codec round trip fails for EVERY well-formed Signature:
`encodeToBinary` writes `sizeMinusHeader = contents + 8` where
`decodeFromBinary` requires `length - 48` (and its CRC store happens after
`Buffer.concat` copied the header, leaving zero CRC bytes), so whenever
encoding succeeds, decoding the result raises InvalidContainer; on the
well-formed empty signature (16 kHz, zero samples, no peaks) this is
evaluated concretely for both the binary and the data-URI form. -/
theorem roundtrip_always_errors :
    ((encodeToBinary emptySig).bind decodeFromBinary = .error .invalidContainer ∧
      (encodeToUri emptySig).bind decodeFromUri = .error .invalidContainer) ∧
    ∀ (msg : DecodedMessage) (bs : List ℕ),
      encodeToBinary msg = .ok bs → decodeFromBinary bs = .error .invalidContainer :=
  ⟨⟨by decide, by decide⟩, fun _ _ hok => encode_ok_decode_error hok⟩

set_option maxRecDepth 1000000 in
unseal Rat.mul Rat.add Rat.inv Rat.sub in
/-- Witness for C1: decoding the concrete encoding of the empty signature
raises InvalidContainer. -/
theorem roundtrip_always_errors_witness :
    decodeFromBinary c1bytes = .error .invalidContainer :=
  roundtrip_always_errors.2 emptySig c1bytes (by decide)

/-- Witness for C2 at a concrete input: one 128-sample hop of silence fed to
a fresh generator. -/
theorem first_take_crashes_witness :
    genErrKind (getNextSignature envZero (feedInput (List.replicate 128 0) initGenState)) =
      some JsError.typeError :=
  first_take_crashes envZero (List.replicate 128 0) (by simp)

/-- C4: on every spread pass launched with the write cursor at 0 (the value
it has on the first pass of every generator and keeps forever, the
cursor-advancing append being unreachable) the cell addressed for temporal
offset -1 is ring index `-1` - the JS remainder of `0 - 1` by 256 is
negative - not the claimed in-range `(writeCursor - 1) mod 256 = 255`; the
slot is `undefined` and the update throws a `TypeError`. -/
theorem spreading_crashes (st : DspState) (h : st.spreadFftsOutput.position = 0) :
    dspErrKind (doPeakSpreading st) = some JsError.typeError := by
  obtain ⟨d, hd⟩ := doPeakSpreading_cursor_zero st h
  rw [hd]
  rfl

/-- Witness for C4: the state after the first `doFft` of a silent hop on a
fresh generator, whose spread cursor is 0. -/
theorem spreading_crashes_witness :
    dspErrKind (doPeakSpreading (doFft envZero (List.replicate 128 0) initDsp)) =
      some JsError.typeError :=
  spreading_crashes (doFft envZero (List.replicate 128 0) initDsp) rfl

set_option maxRecDepth 1000000 in
unseal Rat.mul Rat.add Rat.inv Rat.sub in
/-- C3: on a state whose delayed spectrum has an isolated spike at bin 100
passing every peak guard (sub-bin correction zero, 781.25 Hz), the emission
site evaluates the unbound identifier `peak_magnitude` and raises a
`ReferenceError` after creating the empty band entry; the claimed
`FrequencyPeak(14, 6144, 6400)` is never constructed. -/
theorem emission_raises_reference_error :
    dspErrKind (doPeakRecognition envRef (recogState 100)) = some JsError.referenceError ∧
    dspErrMap (doPeakRecognition envRef (recogState 100)) = some [(BandKey.id 1, [])] :=
  ⟨by decide, by decide⟩

set_option maxRecDepth 1000000 in
unseal Rat.mul Rat.add Rat.inv Rat.sub in
/-- C8: a peak at 1562.5 Hz - inside the 250-5500 Hz gate and belonging to
the 1450-3500 band - is never pushed into that band: after the in-range
checks select band 2 and create its empty entry, the push raises a
`ReferenceError` on the unbound `peak_magnitude`, so the claimed bucketing
of in-range peaks never happens. -/
theorem gated_peak_not_emitted :
    dspErrKind (doPeakRecognition envRef (recogState 200)) = some JsError.referenceError ∧
    dspErrMap (doPeakRecognition envRef (recogState 200)) = some [(BandKey.id 2, [])] :=
  ⟨by decide, by decide⟩

set_option maxRecDepth 1000000 in
unseal Rat.mul Rat.add Rat.inv Rat.sub in
/-- C6 counterexample: after feeding 1024 zero samples (at least 128, so
the insufficient-data return is not taken) `getNextSignature` does not
return `null`: the processing loop runs and raises. -/
theorem tryTake_1024_not_none :
    isNoneResult (getNextSignature envZero (feedInput (List.replicate 1024 0) initGenState)) =
      false := by decide

/-- C7: `decodeFromBinary` raises InvalidContainer on every header-bearing
input whose magic1 is not 0xCAFE2580, whose magic2 is not 0x94119C00, or
whose size field is not `length - 48`. -/
theorem decode_rejects_bad_magics (data : List ℕ) (h48 : 48 ≤ data.length)
    (hbad : headerField data 0 ≠ 0xcafe2580 ∨ headerField data 12 ≠ 0x94119c00 ∨
      (headerField data 8 : ℤ) ≠ (data.length : ℤ) - 48) :
    decodeFromBinary data = .error .invalidContainer := by
  apply decode_error_of_bad data h48
  rcases hbad with hx | hx | hx
  · exact Or.inl hx
  · exact Or.inr (Or.inr (Or.inr hx))
  · exact Or.inr (Or.inl hx)

/-- Witness for C7: the concrete container with magic1 altered to
0xDEADBEEF is rejected. -/
theorem decode_rejects_bad_magics_witness :
    decodeFromBinary c7data = .error .invalidContainer :=
  decode_rejects_bad_magics c7data (by decide) (Or.inl (by decide))

set_option maxRecDepth 1000000 in
unseal Rat.mul Rat.add Rat.inv Rat.sub in
/-- Witness for C5: the concrete valid container `c5data` decodes, and
flipping reserved byte 20 to 1 makes decoding fail with InvalidContainer. -/
theorem decode_detects_byte_flip_witness :
    decodeFromBinary (c5data.set 20 1) = .error .invalidContainer :=
  decode_detects_byte_flip c5data 20 1 ⟨16000, 160, []⟩ (by decide) (by decide) (by decide)
    (by decide) (by decide)

/-- Witness for C9 at a concrete input: a quarter-second of silence drained
twice. -/
theorem pipeline_deterministic_witness :
    runPipeline envZero (List.replicate 256 0) 2 = runPipeline envZero (List.replicate 256 0) 2 :=
  pipeline_deterministic envZero (List.replicate 256 0) (List.replicate 256 0) 2 2 rfl rfl
